import Mathlib

/-!
# Verification of the RushMore pizzeria population pipeline

Shallow embedding of `src/populate.py` (masking transforms, the customer
generator's collision-repair pass, the ingredient name loop, the
item-ingredient sampler, the order generator, and the order aggregate
reconciler), together with theorems settling the specification claims.

Strings are modelled as `List Char`; Python exceptions are modelled by
`Option`/`Except`; `random` draws are modelled as explicit inputs supplied by
an abstract random source.  Decimal arithmetic is modelled over `ℚ`, with
Python's `round(x, n)` modelled exactly (round-half-to-even).
-/

namespace Populate

/-- Python's built-in `round` on an exact value: round half to even. -/
def pyRound (q : ℚ) : ℤ :=
  let n := ⌊q⌋
  let r := q - n
  if r < 1/2 then n
  else if 1/2 < r then n + 1
  else if n % 2 = 0 then n else n + 1

/-- Python's `round(x, 2)`: round to the nearest multiple of `1/100`,
half to even. -/
def round2 (q : ℚ) : ℚ := (pyRound (q * 100) : ℚ) / 100

/-- Python's `int(x)` on a real value: truncation toward zero. -/
def pyTrunc (q : ℚ) : ℤ := if 0 ≤ q then ⌊q⌋ else ⌈q⌉

/-- `mask_email` from `src/populate.py`.  `none` models the `IndexError`
raised by `local[0]` when the text before the first `'@'` is empty; both
branches of the source's `if len(local) <= 2` produce
`local[0] + "*" * (len(local) - 1)`, so they are modelled by the single
expression below.  The fail-open branch returns the input unchanged when it
is empty or contains no `'@'`. -/
def mask_email (email : List Char) : Option (List Char) :=
  if email = [] ∨ '@' ∉ email then some email
  else
    match email.takeWhile (fun c => c ≠ '@') with
    | [] => none
    | c :: rest =>
      some (c :: (List.replicate rest.length '*' ++
                  '@' :: (email.dropWhile (fun c => c ≠ '@')).tail))

/-- `mask_phone` from `src/populate.py`: keep the last 4 digits, mask the
remaining digits, drop non-digit characters; empty input or input with no
digits is returned unchanged. -/
def mask_phone (phone : List Char) : List Char :=
  if phone = [] then phone
  else
    let digits := phone.filter Char.isDigit
    if digits = [] then phone
    else if digits.length ≤ 4 then List.replicate digits.length '*'
    else List.replicate (digits.length - 4) '*' ++ digits.drop (digits.length - 4)

/-- One random draw consumed per generated customer: the raw (pre-masking)
email and phone produced by `faker.unique`, and the two `randint(1000, 9999)`
tags drawn on collision repair (an arbitrary natural, mapped into
`[1000, 9999]` by `repairTag`).  The name and `created_at` fields of the
source are elided: they do not interact with masking or uniqueness. -/
structure CDraw where
  rawEmail : List Char
  rawPhone : List Char
  emailTag : Nat
  phoneTag : Nat
deriving DecidableEq

/-- The masked identity fields of one accepted customer row (the fields the
uniqueness invariant ranges over). -/
structure CustRow where
  email : List Char
  phone : List Char
deriving DecidableEq

/-- `random.randint(1000, 9999)`: an arbitrary draw mapped into the interval. -/
def repairTag (t : Nat) : Nat := 1000 + t % 9000

/-- `masked_email.replace("@", f"+{tag}@")`: every `'@'` is replaced by
`'+'`, the decimal digits of the tag, and `'@'`. -/
def repairEmail (m : List Char) (tag : Nat) : List Char :=
  m.flatMap fun c => if c = '@' then '+' :: ((Nat.repr tag).data ++ ['@']) else [c]

/-- The body of the customer loop in `create_customers`: mask the raw email
(`none` propagates the `IndexError` from `mask_email`), repair it against the
already-accepted rows if it collides, then do the same for the phone.  The
collision check compares the candidate only against rows accepted so far; the
repaired value is not re-checked. -/
def acceptCustomer (accepted : List CustRow) (d : CDraw) : Option CustRow :=
  (mask_email d.rawEmail).map fun m =>
    let email := if accepted.any fun c => decide (c.email = m)
      then repairEmail m (repairTag d.emailTag) else m
    let ph := mask_phone d.rawPhone
    let phone := if accepted.any fun c => decide (c.phone = ph)
      then ph ++ (Nat.repr (repairTag d.phoneTag)).data else ph
    ⟨email, phone⟩

/-- The customer loop of `create_customers`, accumulating accepted rows in
order. -/
def createCustomersAux (acc : List CustRow) : List CDraw → Option (List CustRow)
  | [] => some acc
  | d :: ds =>
    match acceptCustomer acc d with
    | none => none
    | some r => createCustomersAux (acc ++ [r]) ds

/-- `create_customers` from `src/populate.py`: the left-to-right generation
pass over one draw per requested customer. -/
def create_customers (ds : List CDraw) : Option (List CustRow) :=
  createCustomersAux [] ds

/-- Three raw emails that all mask to `"a****@x.com"`, with the second and
third repair tags drawing the same value (`repairTag 234 = 1234`). -/
def cexCDraws : List CDraw :=
  [⟨("alice@x.com".data), ("0000001111".data), 0, 0⟩,
   ⟨("amber@x.com".data), ("0000002222".data), 234, 0⟩,
   ⟨("angel@x.com".data), ("0000003333".data), 234, 0⟩]

/-- The rows `create_customers` accepts on `cexCDraws`: the second and third
masked emails coincide. -/
def cexCRows : List CustRow :=
  [⟨("a****@x.com".data), ("******1111".data)⟩,
   ⟨("a****+1234@x.com".data), ("******2222".data)⟩,
   ⟨("a****+1234@x.com".data), ("******3333".data)⟩]

/-- Two draws whose masked emails and phones are pairwise distinct. -/
def wCDraws : List CDraw :=
  [⟨("bob@y.com".data), ("0000001111".data), 0, 0⟩,
   ⟨("carol@z.com".data), ("0000002222".data), 0, 0⟩]

/-- The rows accepted on `wCDraws`. -/
def wCRows : List CustRow :=
  [⟨("b**@y.com".data), ("******1111".data)⟩,
   ⟨("c****@z.com".data), ("******2222".data)⟩]

/-- The fixed vocabulary `basic` of `create_ingredients`. -/
def basicIngredientNames : List String :=
  ["Tomato", "Cheese", "Pepperoni", "Mushroom", "Basil",
   "Chicken", "Onion", "Peppers", "Olive Oil", "Garlic",
   "Dough", "Sausage", "Spinach", "Feta", "Pineapple",
   "Ham", "Bacon", "Jalapeno", "Corn", "BBQ Sauce"]

/-- One iteration's random draws in the ingredient name loop:
`random.choice(basic)` (an arbitrary natural, reduced modulo the vocabulary
size) and the `faker.word()` suffix word. -/
structure IngDraw where
  baseIdx : Nat
  word : String
deriving DecidableEq

/-- One iteration of the `while len(names) < num_ingredients` loop body in
`create_ingredients`: pick a base name, append a space and the drawn word if
the base is already present, and add the result to the set. -/
def ingStep (names : Finset String) (d : IngDraw) : Finset String :=
  let base := basicIngredientNames.getD
    (d.baseIdx % basicIngredientNames.length) ("")
  let name := if base ∈ names then base ++ " " ++ d.word else base
  insert name names

/-- The `while len(names) < num_ingredients` loop of `create_ingredients`,
with explicit fuel: `none` means the fuel ran out while the set was still
below the target, i.e. the source loop has not terminated within `fuel`
iterations (the source has no fuel bound and simply keeps iterating). -/
def ingLoop (draws : Nat → IngDraw) (target : Nat) :
    Nat → Nat → Finset String → Option (Finset String)
  | 0, _, names => if names.card < target then none else some names
  | fuel + 1, i, names =>
    if names.card < target then
      ingLoop draws target fuel (i + 1) (ingStep names (draws i))
    else some names

/-- The name-building phase of `create_ingredients`: run the loop starting
from the empty set. -/
def create_ingredient_names (draws : Nat → IngDraw) (target fuel : Nat) :
    Option (Finset String) :=
  ingLoop draws target fuel 0 ∅

/-- An adversarial random source: always pick the first base name
(`"Tomato"`) and always draw the suffix word `"x"`. -/
def badIngDraws : Nat → IngDraw := fun _ => ⟨0, "x"⟩

/-- A random source that picks a different base name at every iteration. -/
def wIngDraws : Nat → IngDraw := fun i => ⟨i, ""⟩

/-- Random draws consumed for one menu item in `create_item_ingredients`:
`random.randint(2, 6)` (an arbitrary natural, mapped into `[2, 6]` as
`2 + k % 5`), the selection order underlying `random.sample` (a permutation
of the ingredient id pool, of which the first `min n |pool|` elements are the
sample), and the `round(random.uniform(5.0, 300.0), 2)` quantity drawn for
each chosen ingredient id. -/
structure IIDraw where
  k : Nat
  perm : List Nat
  qty : Nat → ℚ

/-- The loop body of `create_item_ingredients` for one menu item: sample
`min (randint(2,6)) |pool|` ingredient ids without replacement and attach a
rounded quantity to each. -/
def itemIngredientsFor (ingredient_ids : List Nat) (item_id : Nat)
    (d : IIDraw) : List (Nat × Nat × ℚ) :=
  (d.perm.take (min (2 + d.k % 5) ingredient_ids.length)).map fun ing =>
    (item_id, ing, round2 (d.qty ing))

/-- `create_item_ingredients` from `src/populate.py` (the row-generation
part; the bulk insert itself is dataflow-neutral).  The random source is
indexed by menu item id; menu item ids are server-assigned primary keys and
pairwise distinct in a run. -/
def create_item_ingredients (menu_item_ids ingredient_ids : List Nat)
    (draws : Nat → IIDraw) : List (Nat × Nat × ℚ) :=
  menu_item_ids.flatMap fun item =>
    itemIngredientsFor ingredient_ids item (draws item)

/-- A concrete item-ingredient draw: `randint` draw 2, sample order
`[30, 10, 20]`, all quantities 7. -/
def wIIDraws : Nat → IIDraw := fun _ => ⟨0, [30, 10, 20], fun _ => 7⟩

/-- Random draws consumed for one order in `create_orders`:
`random.random()` (a rational in `[0, 1)`), the `random.choice` index into
the customer pool, the `random.choice` index into the store pool, and the
status choice index.  The two timestamp-offset draws are elided: the order
timestamp does not interact with any claim. -/
structure ODraw where
  r : ℚ
  custIdx : Nat
  storeIdx : Nat
  statusIdx : Nat

/-- The four order status values. -/
def orderStatuses : List String :=
  ["Pending", "Preparing", "Completed", "Cancelled"]

/-- `random.choice(customer_ids) if customer_ids and random.random() >
guest_rate else None` from `create_orders`. -/
def pickCustomer (customer_ids : List Nat) (guest_rate : ℚ) (d : ODraw) :
    Option Nat :=
  if customer_ids ≠ [] ∧ guest_rate < d.r then
    some (customer_ids.getD (d.custIdx % customer_ids.length) 0)
  else none

/-- One generated order row (timestamp elided; `total_amount` is always
written as the placeholder `0`). -/
structure OrderRow where
  customer_id : Option Nat
  store_id : Nat
  total_amount : ℚ
  status : String
deriving DecidableEq

/-- `create_orders` from `src/populate.py`: one row per requested order,
each consuming its own draw. -/
def create_orders (customer_ids store_ids : List Nat) (num_orders : Nat)
    (guest_rate : ℚ) (draws : Nat → ODraw) : List OrderRow :=
  (List.range num_orders).map fun i =>
    let d := draws i
    ⟨pickCustomer customer_ids guest_rate d,
     store_ids.getD (d.storeIdx % store_ids.length) 0,
     0,
     orderStatuses.getD (d.statusIdx % orderStatuses.length) ("")⟩

/-- A behaviour of the uniform source that draws exactly `0.0` — a value in
`random.random()`'s documented range `[0, 1)`. -/
def cexODraws : Nat → ODraw := fun _ => ⟨0, 0, 0, 0⟩

/-- A behaviour of the uniform source whose draws are strictly positive. -/
def wODraws : Nat → ODraw := fun _ => ⟨1/2, 0, 0, 0⟩

/-- Random draws consumed for one order line in `create_order_items`: the
`random.choices` index into the menu item pool (reduced modulo the pool
size), the `random.randint(1, 3)` quantity (mapped into `[1, 3]` as
`1 + q % 3`), and the `random.uniform(-0.05, 0.10)` price perturbation. -/
structure LineDraw where
  itemIdx : Nat
  qty : Nat
  eps : ℚ

/-- Random draws consumed for one order in `create_order_items`: the
`random.gauss(avg_items_per_order, 1)` value and the per-line draws. -/
structure OrderDraw where
  gauss : ℚ
  line : Nat → LineDraw

/-- One `order_items` row: `(order_id, item_id, quantity,
price_at_time_of_order)`. -/
structure OrderLine where
  order_id : Nat
  item_id : Nat
  quantity : Nat
  price_at_time : ℚ
deriving DecidableEq

/-- `max(1, int(random.gauss(avg_items_per_order, 1)))`: the number of line
items attached to one order. -/
def itemCount (g : ℚ) : Nat := (max 1 (pyTrunc g)).toNat

/-- The inner loop of `create_order_items` for one order: choose
`itemCount` menu items with replacement and build one row per choice, with
quantity in `[1, 3]` and the catalog price perturbed then rounded. -/
def linesFor (menu : List (Nat × ℚ)) (oid : Nat) (d : OrderDraw) :
    List OrderLine :=
  (List.range (itemCount d.gauss)).map fun j =>
    let ld := d.line j
    let mi := menu.getD (ld.itemIdx % menu.length) (0, 0)
    ⟨oid, mi.1, 1 + ld.qty % 3, round2 (mi.2 * (1 + ld.eps))⟩

/-- The per-order total accumulated by `create_order_items`:
`round(sum(price_at_time * quantity), 2)` over that order's lines. -/
def orderTotal (menu : List (Nat × ℚ)) (oid : Nat) (d : OrderDraw) : ℚ :=
  round2 (((linesFor menu oid d).map
    fun l => l.price_at_time * (l.quantity : ℚ)).sum)

/-- The item-assignment phase of `create_order_items`: all generated
`order_items` rows (in insertion order) and the `update_pairs` list
`(total_amount, order_id)` driving the bulk `UPDATE` of phase 2.  The random
source is indexed by order id; order ids are server-assigned primary keys
and pairwise distinct in a run. -/
def reconcile (menu : List (Nat × ℚ)) (order_ids : List Nat)
    (draws : Nat → OrderDraw) : List OrderLine × List (ℚ × Nat) :=
  (order_ids.flatMap fun oid => linesFor menu oid (draws oid),
   order_ids.map fun oid => (orderTotal menu oid (draws oid), oid))

/-- The summary dictionary returned by `create_order_items`. -/
structure RecSummary where
  orders : Nat
  order_items : Nat
  revenue : ℚ
deriving DecidableEq

/-- `create_order_items` from `src/populate.py`: returns the summary
immediately when there are no orders; raises (`Except.error`) when there are
orders but no menu items; otherwise returns the generated rows, the update
pairs and the summary. -/
def create_order_items (menu : List (Nat × ℚ)) (order_ids : List Nat)
    (draws : Nat → OrderDraw) :
    Except String (List OrderLine × List (ℚ × Nat) × RecSummary) :=
  if order_ids = [] then Except.ok ([], [], ⟨0, 0, 0⟩)
  else if menu = [] then
    Except.error ("No menu_items found - cannot create order_items.")
  else
    let out := reconcile menu order_ids draws
    Except.ok (out.1, out.2,
      ⟨order_ids.length, out.1.length, round2 ((out.2.map fun u => u.1).sum)⟩)

/-- An order draw whose Gauss value is `2`: two lines, both choosing the
first (and only) menu item. -/
def wOrderDraws : Nat → OrderDraw := fun _ => ⟨2, fun _ => ⟨0, 0, 0⟩⟩

/-- An order draw whose Gauss value is `2.6`: `int()` truncation gives 2
line items where rounding would give 3. -/
def cexOrderDraws : Nat → OrderDraw := fun _ => ⟨13/5, fun _ => ⟨0, 0, 0⟩⟩

/-- If `'@'` occurs in `l`, then `dropWhile (· ≠ '@')` starts with `'@'`. -/
lemma dropWhile_of_at_mem :
    ∀ l : List Char, '@' ∈ l →
      ∃ t, l.dropWhile (fun c => c ≠ '@') = '@' :: t := by
  intro l hl
  induction l with
  | nil => cases hl
  | cons a l ih =>
    by_cases ha : a = '@'
    · subst ha
      exact ⟨l, by simp [List.dropWhile]⟩
    · have hl' : '@' ∈ l := by
        cases List.mem_cons.mp hl with
        | inl h => exact absurd h.symm ha
        | inr h => exact h
      obtain ⟨t, ht⟩ := ih hl'
      refine ⟨t, ?_⟩
      rw [List.dropWhile_cons, if_pos (by simp [ha])]
      exact ht

/-- `takeWhile (· ≠ '@')` contains no `'@'`. -/
lemma at_not_mem_takeWhile (l : List Char) :
    '@' ∉ l.takeWhile (fun c => c ≠ '@') := by
  intro h
  have := List.mem_takeWhile_imp h
  simp at this

/-- Splitting at the first `'@'`: `takeWhile`/`dropWhile` of a list of the
form `l ++ '@' :: t` with `'@' ∉ l`. -/
lemma split_at_first_at (l t : List Char) (h : '@' ∉ l) :
    (l ++ '@' :: t).takeWhile (fun c => c ≠ '@') = l ∧
    (l ++ '@' :: t).dropWhile (fun c => c ≠ '@') = '@' :: t := by
  induction l with
  | nil => simp [List.takeWhile, List.dropWhile]
  | cons a l ih =>
    have ha : a ≠ '@' := fun hc => h (hc ▸ List.mem_cons_self a l)
    have h' : '@' ∉ l := fun hc => h (List.mem_cons_of_mem a hc)
    obtain ⟨ht, hd⟩ := ih h'
    constructor
    · rw [List.cons_append, List.takeWhile_cons, if_pos (by simp [ha]), ht]
    · rw [List.cons_append, List.dropWhile_cons, if_pos (by simp [ha]), hd]

end Populate

namespace Populate

/-- Whatever rows the customer loop accepts extend the accumulator. -/
lemma createCustomersAux_suffix :
    ∀ (ds : List CDraw) (acc cs : List CustRow),
      createCustomersAux acc ds = some cs → ∃ t, cs = acc ++ t := by
  intro ds
  induction ds with
  | nil =>
    intro acc cs h
    exact ⟨[], by simpa [createCustomersAux] using h.symm⟩
  | cons d ds ih =>
    intro acc cs h
    rw [createCustomersAux] at h
    cases hstep : acceptCustomer acc d with
    | none => rw [hstep] at h; cases h
    | some r =>
      rw [hstep] at h
      obtain ⟨t, ht⟩ := ih (acc ++ [r]) cs h
      exact ⟨r :: t, by simpa using ht⟩

/-- Every row accepted by the run is produced by `acceptCustomer` applied to
exactly the rows accepted before it. -/
lemma createCustomersAux_split :
    ∀ (ds : List CDraw) (acc cs : List CustRow),
      createCustomersAux acc ds = some cs →
      ∀ (p : List CustRow) (r : CustRow) (q : List CustRow),
        cs = p ++ r :: q → acc.length ≤ p.length →
        ∃ d ∈ ds, acceptCustomer p d = some r := by
  intro ds
  induction ds with
  | nil =>
    intro acc cs h p r q hsplit hlen
    have hacc : acc = cs := by simpa [createCustomersAux] using h
    rw [hsplit] at hacc
    have := congrArg List.length hacc
    simp at this
    omega
  | cons d ds ih =>
    intro acc cs h p r q hsplit hlen
    rw [createCustomersAux] at h
    cases hstep : acceptCustomer acc d with
    | none => rw [hstep] at h; cases h
    | some r0 =>
      rw [hstep] at h
      rcases Nat.eq_or_lt_of_le hlen with heq | hlt
      · obtain ⟨t, ht⟩ := createCustomersAux_suffix ds (acc ++ [r0]) cs h
        rw [hsplit, List.append_assoc] at ht
        obtain ⟨hpe, hre⟩ := List.append_inj ht heq.symm
        have hr0 : r0 = r := by
          have := hre.symm
          rw [List.singleton_append] at this
          exact (List.cons.injEq _ _ _ _ ▸ this).1
        exact ⟨d, List.mem_cons_self _ _, by rw [hpe, ← hr0]; exact hstep⟩
      · obtain ⟨d', hd', hacc⟩ := ih (acc ++ [r0]) cs h p r q hsplit
          (by simpa using hlt)
        exact ⟨d', List.mem_cons_of_mem _ hd', hacc⟩

/-- C2 (counterexample): on `cexCDraws` the run succeeds but accepts the
masked email `"a****+1234@x.com"` twice — the second and third raw emails
both mask to `"a****@x.com"`, both are repaired against the first accepted
row, and the repaired values (built from equal random tags) are never
re-checked against each other — refuting pairwise distinctness of the
accepted masked emails. -/
theorem masked_email_uniqueness_cex :
    create_customers cexCDraws = some cexCRows ∧
    ¬ (cexCRows.map CustRow.email).Nodup :=
  ⟨by decide, by decide⟩

/-- C2 (amended): the collision-repair pass is a single left-to-right pass;
each accepted row's masked email (resp. phone) either differs from every
previously accepted masked email (resp. phone), or is the tag-repaired form
of a candidate that collided with some previously accepted value.  Repaired
values are accepted without a re-check, so pairwise distinctness of all
accepted values is not guaranteed. -/
theorem customer_repair_pass_spec (ds : List CDraw) (cs : List CustRow)
    (h : create_customers ds = some cs)
    (p : List CustRow) (r : CustRow) (q : List CustRow)
    (hsplit : cs = p ++ r :: q) :
    ∃ d ∈ ds,
      ((r.email ∉ p.map CustRow.email) ∨
        ∃ m, mask_email d.rawEmail = some m ∧ m ∈ p.map CustRow.email ∧
          r.email = repairEmail m (repairTag d.emailTag)) ∧
      ((r.phone ∉ p.map CustRow.phone) ∨
        (mask_phone d.rawPhone ∈ p.map CustRow.phone ∧
          r.phone = mask_phone d.rawPhone ++
            (Nat.repr (repairTag d.phoneTag)).data)) := by
  obtain ⟨d, hd, hacc⟩ :=
    createCustomersAux_split ds [] cs h p r q hsplit (by simp)
  refine ⟨d, hd, ?_, ?_⟩
  · rw [acceptCustomer] at hacc
    cases hm : mask_email d.rawEmail with
    | none => rw [hm] at hacc; cases hacc
    | some m =>
      rw [hm, Option.map_some'] at hacc
      have hre : r.email =
          if p.any fun c => decide (c.email = m)
          then repairEmail m (repairTag d.emailTag) else m := by
        rw [← Option.some_inj.mp hacc]
      by_cases hcol : p.any fun c => decide (c.email = m)
      · refine Or.inr ⟨m, rfl, ?_, by rw [hre, if_pos hcol]⟩
        obtain ⟨c, hc, hcm⟩ := List.any_eq_true.mp hcol
        exact List.mem_map.mpr ⟨c, hc, of_decide_eq_true hcm⟩
      · refine Or.inl ?_
        rw [hre, if_neg hcol]
        intro hmem
        obtain ⟨c, hc, hcm⟩ := List.mem_map.mp hmem
        exact hcol (List.any_eq_true.mpr ⟨c, hc, decide_eq_true hcm⟩)
  · rw [acceptCustomer] at hacc
    cases hm : mask_email d.rawEmail with
    | none => rw [hm] at hacc; cases hacc
    | some m =>
      rw [hm, Option.map_some'] at hacc
      have hrp : r.phone =
          if p.any fun c => decide (c.phone = mask_phone d.rawPhone)
          then mask_phone d.rawPhone ++ (Nat.repr (repairTag d.phoneTag)).data
          else mask_phone d.rawPhone := by
        rw [← Option.some_inj.mp hacc]
      by_cases hcol : p.any fun c => decide (c.phone = mask_phone d.rawPhone)
      · refine Or.inr ⟨?_, by rw [hrp, if_pos hcol]⟩
        obtain ⟨c, hc, hcm⟩ := List.any_eq_true.mp hcol
        exact List.mem_map.mpr ⟨c, hc, of_decide_eq_true hcm⟩
      · refine Or.inl ?_
        rw [hrp, if_neg hcol]
        intro hmem
        obtain ⟨c, hc, hcm⟩ := List.mem_map.mp hmem
        exact hcol (List.any_eq_true.mpr ⟨c, hc, decide_eq_true hcm⟩)

/-- C2 (witness): on the two-customer run `wCDraws` the pass accepts
`wCRows`, and the second accepted row is covered by the repair-pass
dichotomy relative to the first. -/
theorem customer_repair_pass_spec_witness :
    create_customers wCDraws = some wCRows ∧
    ∃ d ∈ wCDraws,
      (((⟨("c****@z.com".data), ("******2222".data)⟩ : CustRow).email ∉
          [(⟨("b**@y.com".data), ("******1111".data)⟩ : CustRow)].map
            CustRow.email) ∨
        ∃ m, mask_email d.rawEmail = some m ∧
          m ∈ [(⟨("b**@y.com".data), ("******1111".data)⟩ : CustRow)].map
            CustRow.email ∧
          (⟨("c****@z.com".data), ("******2222".data)⟩ : CustRow).email =
            repairEmail m (repairTag d.emailTag)) ∧
      (((⟨("c****@z.com".data), ("******2222".data)⟩ : CustRow).phone ∉
          [(⟨("b**@y.com".data), ("******1111".data)⟩ : CustRow)].map
            CustRow.phone) ∨
        (mask_phone d.rawPhone ∈
            [(⟨("b**@y.com".data), ("******1111".data)⟩ : CustRow)].map
              CustRow.phone ∧
          (⟨("c****@z.com".data), ("******2222".data)⟩ : CustRow).phone =
            mask_phone d.rawPhone ++
              (Nat.repr (repairTag d.phoneTag)).data)) :=
  ⟨by decide,
    customer_repair_pass_spec wCDraws wCRows (by decide)
      [⟨("b**@y.com".data), ("******1111".data)⟩]
      ⟨("c****@z.com".data), ("******2222".data)⟩ [] (by decide)⟩

/-- C3 (counterexample): on the input `"@x.com"` — which is non-empty and
contains `'@'`, but whose local part is empty — `mask_email` does not return:
`local[0]` raises `IndexError` (modelled by `none`), refuting the claim that
`mask_email` returns without error on every input string. -/
theorem mask_email_empty_local_cex :
    mask_email ("@x.com".data) = none := by decide

/-- C3 (amended): `mask_email` fails open (returns the input unchanged) on an
empty input or an input with no `'@'`; it raises (returns `none`) on an input
that starts with `'@'` (empty local part); and on any input whose local part
`c :: lp` is non-empty it returns the first local character followed by one
`'*'` per remaining local character, then `'@'` and the domain verbatim. -/
theorem mask_email_spec :
    (∀ e : List Char, e = [] ∨ '@' ∉ e → mask_email e = some e) ∧
    (∀ rest : List Char, mask_email ('@' :: rest) = none) ∧
    (∀ (c : Char) (lp dom : List Char), '@' ∉ c :: lp →
      mask_email (c :: (lp ++ '@' :: dom)) =
        some (c :: (List.replicate lp.length '*' ++ '@' :: dom))) := by
  refine ⟨?_, ?_, ?_⟩
  · intro e he
    simp only [mask_email, if_pos he]
  · intro rest
    have hmem : '@' ∈ '@' :: rest := List.mem_cons_self _ _
    have hcond : ¬(('@' :: rest : List Char) = [] ∨ '@' ∉ '@' :: rest) := by
      simp [hmem]
    have htake : ('@' :: rest).takeWhile (fun c => c ≠ '@') = [] := by
      rw [List.takeWhile_cons, if_neg (by simp)]
    simp only [mask_email, if_neg hcond, htake]
  · intro c lp dom hc
    have hmem : '@' ∈ c :: (lp ++ '@' :: dom) := by
      refine List.mem_cons_of_mem _ ?_
      exact List.mem_append_right _ (List.mem_cons_self _ _)
    have hcond : ¬((c :: (lp ++ '@' :: dom) : List Char) = [] ∨
        '@' ∉ c :: (lp ++ '@' :: dom)) := by simp [hmem]
    obtain ⟨ht, hd⟩ := split_at_first_at (c :: lp) dom hc
    rw [List.cons_append] at ht hd
    simp only [mask_email, if_neg hcond, ht, hd, List.tail_cons]

/-- C3 (witness): masking `"al@x.com"` (local part of length 2) yields
`"a*@x.com"`. -/
theorem mask_email_spec_witness :
    ('@' ∉ ('a' :: ['l'])) ∧
    mask_email ("al@x.com".data) = some ("a*@x.com".data) := by
  refine ⟨by decide, ?_⟩
  have h := mask_email_spec.2.2 'a' (['l']) ("x.com".data) (by decide)
  exact h

/-- C4: for every input with at least one digit character, `mask_phone`
builds its result from the digit characters only: all of them masked when
there are at most 4, otherwise all but the last 4 masked with the last 4
kept in their original order. -/
theorem mask_phone_spec (phone : List Char)
    (h : phone.filter Char.isDigit ≠ []) :
    ((phone.filter Char.isDigit).length ≤ 4 →
      mask_phone phone =
        List.replicate (phone.filter Char.isDigit).length '*') ∧
    (4 < (phone.filter Char.isDigit).length →
      mask_phone phone =
        List.replicate ((phone.filter Char.isDigit).length - 4) '*' ++
        (phone.filter Char.isDigit).drop
          ((phone.filter Char.isDigit).length - 4)) := by
  have hne : phone ≠ [] := by
    intro hp
    exact h (by simp [hp])
  constructor
  · intro hle
    simp only [mask_phone, if_neg hne, if_neg h, if_pos hle]
  · intro hgt
    simp only [mask_phone, if_neg hne, if_neg h, if_neg (not_le.mpr hgt)]

/-- C4 (witness): `"15551234567"` has 11 digits, so masking yields 7 `'*'`
followed by the last four digits `"4567"`. -/
theorem mask_phone_spec_witness :
    ("15551234567".data.filter Char.isDigit ≠ []) ∧
    mask_phone ("15551234567".data) =
      List.replicate (("15551234567".data.filter Char.isDigit).length - 4) '*' ++
      ("15551234567".data.filter Char.isDigit).drop
        (("15551234567".data.filter Char.isDigit).length - 4) :=
  ⟨by decide, (mask_phone_spec ("15551234567".data) (by decide)).2 (by decide)⟩

/-- C10: when the text before the first `'@'` has length exactly 1,
`mask_email` returns its input unchanged (the single local character is kept
and zero mask characters are inserted). -/
theorem mask_email_single_char_local (e : List Char) (hne : e ≠ [])
    (h1 : (e.takeWhile (fun c => c ≠ '@')).length = 1) :
    mask_email e = some e := by
  by_cases hmem : '@' ∈ e
  · have hcond : ¬(e = [] ∨ '@' ∉ e) := by simp [hne, hmem]
    obtain ⟨t, hd⟩ := dropWhile_of_at_mem e hmem
    obtain ⟨c, htake⟩ : ∃ c, e.takeWhile (fun x => x ≠ '@') = [c] := by
      match hx : e.takeWhile (fun x => x ≠ '@') with
      | [] => rw [hx] at h1; simp at h1
      | [c] => exact ⟨c, rfl⟩
      | c :: d :: rest => rw [hx] at h1; simp at h1
    have hsplit : e = [c] ++ '@' :: t := by
      conv_lhs => rw [← List.takeWhile_append_dropWhile
        (p := fun x => x ≠ '@') (l := e)]
      rw [htake, hd]
    simp only [mask_email, if_neg hcond, htake, hd, List.tail_cons,
      List.length_nil, List.replicate_zero, List.nil_append]
    rw [hsplit]
    rfl
  · simp only [mask_email, if_pos (Or.inr hmem)]

/-- C10 (witness): masking `"a@x.com"` (local part of length 1) returns the
input unchanged. -/
theorem mask_email_single_char_local_witness :
    (("a@x.com".data : List Char) ≠ []) ∧
    (("a@x.com".data.takeWhile (fun c => c ≠ '@')).length = 1) ∧
    mask_email ("a@x.com".data) = some ("a@x.com".data) :=
  ⟨by decide, by decide,
    mask_email_single_char_local ("a@x.com".data) (by decide) (by decide)⟩

/-- Under the adversarial source `badIngDraws`, every reachable name set
stays inside `{"Tomato", "Tomato x"}`, so a target of 3 is never reached. -/
lemma ingLoop_stuck :
    ∀ (fuel i : Nat) (names : Finset String),
      names ⊆ {"Tomato", "Tomato x"} →
      ingLoop badIngDraws 3 fuel i names = none := by
  intro fuel
  induction fuel with
  | zero =>
    intro i names hsub
    have hcard : names.card < 3 := by
      have h2 : names.card ≤ 2 := by
        calc names.card ≤ ({"Tomato", "Tomato x"} : Finset String).card :=
              Finset.card_le_card hsub
          _ ≤ 2 := by decide
      omega
    simp [ingLoop, hcard]
  | succ fuel ih =>
    intro i names hsub
    have hcard : names.card < 3 := by
      have h2 : names.card ≤ 2 := by
        calc names.card ≤ ({"Tomato", "Tomato x"} : Finset String).card :=
              Finset.card_le_card hsub
          _ ≤ 2 := by decide
      omega
    rw [ingLoop, if_pos hcard]
    refine ih (i + 1) _ ?_
    have hstepeq : ingStep names (badIngDraws i) =
        ingStep names ⟨0, ("x")⟩ := rfl
    rw [hstepeq, ingStep]
    refine Finset.insert_subset ?_ hsub
    have hbase : basicIngredientNames.getD
        ((⟨0, ("x")⟩ : IngDraw).baseIdx % basicIngredientNames.length) ("") =
        "Tomato" := by decide
    rw [hbase]
    by_cases hT : ("Tomato" : String) ∈ names
    · rw [if_pos hT]
      decide
    · rw [if_neg hT]
      decide

/-- C7 (counterexample): with the constant random source `badIngDraws`
(always base `"Tomato"`, always suffix word `"x"`), the name-building loop of
`create_ingredients` with requested count 3 never terminates: the set is
stuck at `{"Tomato", "Tomato x"}` and no iteration bound makes the loop
produce a result, refuting termination for every behaviour of the random
sources. -/
theorem ingredient_loop_divergence_cex :
    ¬ ∃ fuel, (create_ingredient_names badIngDraws 3 fuel).isSome := by
  rintro ⟨fuel, hf⟩
  rw [create_ingredient_names, ingLoop_stuck fuel 0 ∅ (by simp)] at hf
  simp at hf

/-- Each loop iteration adds at most one name, so a run that exits does so
with exactly the target cardinality. -/
lemma ingLoop_card :
    ∀ (fuel : Nat) (draws : Nat → IngDraw) (target i : Nat)
      (names res : Finset String), names.card ≤ target →
      ingLoop draws target fuel i names = some res → res.card = target := by
  intro fuel
  induction fuel with
  | zero =>
    intro draws target i names res hle h
    rw [ingLoop] at h
    by_cases hlt : names.card < target
    · rw [if_pos hlt] at h; cases h
    · rw [if_neg hlt] at h
      have hnr : names = res := Option.some_inj.mp h
      rw [← hnr]
      omega
  | succ fuel ih =>
    intro draws target i names res hle h
    rw [ingLoop] at h
    by_cases hlt : names.card < target
    · rw [if_pos hlt] at h
      refine ih draws target (i + 1) _ res ?_ h
      calc (ingStep names (draws i)).card
          ≤ names.card + 1 := Finset.card_insert_le _ _
        _ ≤ target := by omega
    · rw [if_neg hlt] at h
      have hnr : names = res := Option.some_inj.mp h
      rw [← hnr]
      omega

/-- C7 (amended): the name-building loop of `create_ingredients` does not
terminate for every behaviour of the random sources (see the
counterexample); whenever it does terminate, the produced name set contains
exactly the requested number of distinct names. -/
theorem ingredient_loop_card_spec (draws : Nat → IngDraw) (target fuel : Nat)
    (res : Finset String)
    (h : create_ingredient_names draws target fuel = some res) :
    res.card = target :=
  ingLoop_card fuel draws target 0 ∅ res (by simp) h

/-- Filtering a `flatMap` for the key of one generator call, when the keys
are pairwise distinct and each call's rows answer only to its own key,
yields exactly that call's rows. -/
lemma filter_flatMap_eq {α β : Type} (g : α → List β) (p : β → Bool) (a : α)
    (hyes : ∀ b ∈ g a, p b = true)
    (hno : ∀ x, x ≠ a → ∀ b ∈ g x, p b = false) :
    ∀ l : List α, a ∈ l → l.Nodup → (l.flatMap g).filter p = g a := by
  intro l
  induction l with
  | nil => intro h; cases h
  | cons x xs ih =>
    intro hmem hnd
    rw [List.flatMap_cons, List.filter_append]
    by_cases hxa : x = a
    · subst hxa
      have hnotin : x ∉ xs := (List.nodup_cons.mp hnd).1
      rw [List.filter_eq_self.mpr hyes]
      have h2 : (xs.flatMap g).filter p = [] := by
        refine List.filter_eq_nil_iff.mpr ?_
        intro b hb
        obtain ⟨y, hy, hby⟩ := List.mem_flatMap.mp hb
        have hya : y ≠ x := fun hh => hnotin (hh ▸ hy)
        simp [hno y hya b hby]
      rw [h2, List.append_nil]
    · have hmem2 : a ∈ xs := by
        rcases List.mem_cons.mp hmem with h | h
        · exact absurd h.symm hxa
        · exact h
      have h1 : (g x).filter p = [] := by
        refine List.filter_eq_nil_iff.mpr ?_
        intro b hb
        simp [hno x hxa b hb]
      rw [h1, List.nil_append]
      exact ih hmem2 (List.nodup_cons.mp hnd).2

/-- In a duplicate-free list, filtering for one of its members keeps exactly
one element. -/
lemma length_filter_unique {α : Type} [DecidableEq α] :
    ∀ (l : List α) (a : α), l.Nodup → a ∈ l →
      (l.filter fun x => decide (x = a)).length = 1 := by
  intro l
  induction l with
  | nil => intro a _ h; cases h
  | cons x xs ih =>
    intro a hnd hmem
    by_cases hxa : x = a
    · subst hxa
      rw [List.filter_cons, if_pos (by simp)]
      have hrest : xs.filter (fun y => decide (y = x)) = [] := by
        refine List.filter_eq_nil_iff.mpr ?_
        intro b hb
        have hbx : b ≠ x := fun hh => (List.nodup_cons.mp hnd).1 (hh ▸ hb)
        simp [hbx]
      simp [hrest]
    · rw [List.filter_cons, if_neg (by simp [hxa])]
      refine ih a (List.nodup_cons.mp hnd).2 ?_
      rcases List.mem_cons.mp hmem with h | h
      · exact absurd h.symm hxa
      · exact h

/-- Each order's line list has exactly `itemCount` entries. -/
lemma linesFor_length (menu : List (Nat × ℚ)) (oid : Nat) (d : OrderDraw) :
    (linesFor menu oid d).length = itemCount d.gauss := by
  simp [linesFor]

/-- Every row built for an order carries that order's id. -/
lemma linesFor_order_id (menu : List (Nat × ℚ)) (oid : Nat) (d : OrderDraw) :
    ∀ l ∈ linesFor menu oid d, l.order_id = oid := by
  intro l hl
  obtain ⟨j, _, hlj⟩ := List.mem_map.mp hl
  rw [← hlj]

/-- One order's rows in the item-assignment output are exactly the rows its
own loop iteration built. -/
lemma reconcile_rows_filter (menu : List (Nat × ℚ)) (order_ids : List Nat)
    (draws : Nat → OrderDraw) (oid : Nat)
    (hnd : order_ids.Nodup) (hmem : oid ∈ order_ids) :
    (reconcile menu order_ids draws).1.filter
        (fun l => decide (l.order_id = oid)) =
      linesFor menu oid (draws oid) := by
  refine filter_flatMap_eq _ _ oid ?_ ?_ order_ids hmem hnd
  · intro b hb
    simp [linesFor_order_id menu oid (draws oid) b hb]
  · intro x hx b hb
    simp [linesFor_order_id menu x (draws x) b hb, hx]

/-- C1: after the reconciler runs, for every order in a duplicate-free order
id list, the update list writes that order's total exactly once, and every
total written for it equals the sum of `price_at_time_of_order * quantity`
over its generated `order_items` rows, rounded to 2 decimal places after
summation. -/
theorem order_totals_reconciled (menu : List (Nat × ℚ)) (order_ids : List Nat)
    (draws : Nat → OrderDraw) (oid : Nat)
    (hnd : order_ids.Nodup) (hmem : oid ∈ order_ids) :
    ((reconcile menu order_ids draws).2.filter
        (fun u => decide (u.2 = oid))).length = 1 ∧
    ∀ t : ℚ, (t, oid) ∈ (reconcile menu order_ids draws).2 →
      t = round2 ((((reconcile menu order_ids draws).1.filter
          (fun l => decide (l.order_id = oid))).map
          (fun l => l.price_at_time * (l.quantity : ℚ))).sum) := by
  constructor
  · show ((order_ids.map fun o => (orderTotal menu o (draws o), o)).filter
        fun u => decide (u.2 = oid)).length = 1
    rw [List.filter_map, List.length_map]
    have hcomp : ((fun u : ℚ × Nat => decide (u.2 = oid)) ∘
        fun o => (orderTotal menu o (draws o), o)) =
        fun o => decide (o = oid) := rfl
    rw [hcomp]
    exact length_filter_unique order_ids oid hnd hmem
  · intro t ht
    obtain ⟨o, ho, hfo⟩ := List.mem_map.mp ht
    have h1 : orderTotal menu o (draws o) = t := congrArg Prod.fst hfo
    have h2 : o = oid := congrArg Prod.snd hfo
    subst h2
    rw [reconcile_rows_filter menu order_ids draws o hnd hmem, ← h1]
    rfl

/-- C1 (witness): one order (id 5), one menu item (id 7, price 10), two
lines of quantity 1 at price 10: the total 20 is written exactly once and
matches the rounded line sum. -/
theorem order_totals_reconciled_witness :
    (([5] : List Nat)).Nodup ∧ (5 ∈ ([5] : List Nat)) ∧
    ((((reconcile [(7, 10)] [5] wOrderDraws).2.filter
        (fun u => decide (u.2 = 5))).length = 1) ∧
     (∀ t : ℚ, (t, 5) ∈ (reconcile [(7, 10)] [5] wOrderDraws).2 →
       t = round2 ((((reconcile [(7, 10)] [5] wOrderDraws).1.filter
           (fun l => decide (l.order_id = 5))).map
           (fun l => l.price_at_time * (l.quantity : ℚ))).sum))) :=
  ⟨by decide, by decide,
    order_totals_reconciled [(7, 10)] [5] wOrderDraws 5 (by decide) (by decide)⟩

/-- C5 (counterexample): with the Gauss draw `2.6`, the single order
receives `int(2.6) = 2` line items, while the claimed formula
`max(1, round(2.6))` gives 3 — the code truncates the Normal draw instead of
rounding it. -/
theorem order_item_count_round_cex :
    ((reconcile [(7, 10)] [5] cexOrderDraws).1.filter
        (fun l => decide (l.order_id = 5))).length = 2 ∧
    (max 1 (pyRound ((cexOrderDraws 5).gauss))).toNat = 3 := by
  constructor
  · rw [reconcile_rows_filter [(7, 10)] [5] cexOrderDraws 5 (by decide)
      (by decide), linesFor_length]
    show (max 1 (pyTrunc ((13 : ℚ)/5))).toNat = 2
    norm_num [pyTrunc]
    decide
  · show (max 1 (pyRound ((13 : ℚ)/5))).toNat = 3
    norm_num [pyRound]
    decide

/-- C5 (amended): each order receives `max(1, int(x))` line items — `int()`
truncation toward zero, not rounding — where `x` is the Normal draw; in
particular at least one line item; each line's item is drawn from the full
menu pool with replacement, so one order may list the same item in two
separate line entries (witnessed by the concrete run in the last
conjunct). -/
theorem order_item_count_spec (menu : List (Nat × ℚ)) (order_ids : List Nat)
    (draws : Nat → OrderDraw) (oid : Nat)
    (hnd : order_ids.Nodup) (hmem : oid ∈ order_ids) (hmenu : menu ≠ []) :
    ((reconcile menu order_ids draws).1.filter
        (fun l => decide (l.order_id = oid))).length =
      (max 1 (pyTrunc (draws oid).gauss)).toNat ∧
    1 ≤ ((reconcile menu order_ids draws).1.filter
        (fun l => decide (l.order_id = oid))).length ∧
    (∀ l ∈ (reconcile menu order_ids draws).1.filter
        (fun l => decide (l.order_id = oid)), l.item_id ∈ menu.map Prod.fst) ∧
    (reconcile [(7, 10)] [5] wOrderDraws).1.map (fun l => l.item_id) =
      [7, 7] := by
  have hfilter := reconcile_rows_filter menu order_ids draws oid hnd hmem
  have hlen : ((reconcile menu order_ids draws).1.filter
      (fun l => decide (l.order_id = oid))).length =
      (max 1 (pyTrunc (draws oid).gauss)).toNat := by
    rw [hfilter]
    simp [linesFor, itemCount]
  refine ⟨hlen, ?_, ?_, ?_⟩
  · rw [hlen]
    have h1 : (1 : ℤ) ≤ max 1 (pyTrunc (draws oid).gauss) := le_max_left _ _
    exact Int.toNat_le_toNat h1
  · intro l hl
    rw [hfilter] at hl
    obtain ⟨j, _, hlj⟩ := List.mem_map.mp hl
    have hpos : 0 < menu.length := List.length_pos.mpr hmenu
    have hidx : ((draws oid).line j).itemIdx % menu.length < menu.length :=
      Nat.mod_lt _ hpos
    have hget : menu.getD (((draws oid).line j).itemIdx % menu.length) (0, 0) =
        menu[((draws oid).line j).itemIdx % menu.length] :=
      List.getD_eq_getElem menu (0, 0) hidx
    have hil : l.item_id =
        (menu[((draws oid).line j).itemIdx % menu.length]).1 := by
      rw [← hlj]
      show (menu.getD (((draws oid).line j).itemIdx % menu.length) (0, 0)).1 =
        (menu[((draws oid).line j).itemIdx % menu.length]).1
      rw [hget]
    rw [hil]
    exact List.mem_map.mpr ⟨_, List.getElem_mem hidx, rfl⟩
  · have hic : itemCount ((wOrderDraws 5).gauss) = 2 := by
      show (max 1 (pyTrunc (2 : ℚ))).toNat = 2
      norm_num [pyTrunc]
      decide
    show (((([5] : List Nat).flatMap
        fun o => linesFor [(7, 10)] o (wOrderDraws o)).map
        fun l => l.item_id)) = [7, 7]
    rw [List.flatMap_cons, List.flatMap_nil, List.append_nil, linesFor, hic]
    rfl

/-- C5 (witness): one order (id 5) with Gauss draw 2 receives exactly
`max(1, int(2)) = 2` lines, at least one line, with all items drawn from the
menu pool. -/
theorem order_item_count_spec_witness :
    (([5] : List Nat)).Nodup ∧ (5 ∈ ([5] : List Nat)) ∧
    (([(7, 10)] : List (Nat × ℚ)) ≠ []) ∧
    (((reconcile [(7, 10)] [5] wOrderDraws).1.filter
        (fun l => decide (l.order_id = 5))).length =
      (max 1 (pyTrunc ((wOrderDraws 5).gauss))).toNat ∧
    1 ≤ ((reconcile [(7, 10)] [5] wOrderDraws).1.filter
        (fun l => decide (l.order_id = 5))).length ∧
    (∀ l ∈ (reconcile [(7, 10)] [5] wOrderDraws).1.filter
        (fun l => decide (l.order_id = 5)),
      l.item_id ∈ ([(7, 10)] : List (Nat × ℚ)).map Prod.fst) ∧
    (reconcile [(7, 10)] [5] wOrderDraws).1.map (fun l => l.item_id) =
      [7, 7]) :=
  ⟨by decide, by decide, by decide,
    order_item_count_spec [(7, 10)] [5] wOrderDraws 5 (by decide) (by decide)
      (by decide)⟩

/-- C6: for every menu item in a duplicate-free menu list, its generated
`ItemIngredient` rows reference pairwise-distinct ingredient ids, and their
count is `min k |pool|` where `k = 2 + draw % 5 ∈ [2, 6]` is the
`randint(2, 6)` draw. -/
theorem item_ingredients_spec (menu_item_ids ingredient_ids : List Nat)
    (draws : Nat → IIDraw) (item : Nat)
    (hmenu : menu_item_ids.Nodup) (hpool : ingredient_ids.Nodup)
    (hitem : item ∈ menu_item_ids)
    (hperm : (draws item).perm.Perm ingredient_ids) :
    (((create_item_ingredients menu_item_ids ingredient_ids draws).filter
        (fun row => decide (row.1 = item))).map (fun row => row.2.1)).Nodup ∧
    ((create_item_ingredients menu_item_ids ingredient_ids draws).filter
        (fun row => decide (row.1 = item))).length =
      min (2 + (draws item).k % 5) ingredient_ids.length ∧
    2 ≤ 2 + (draws item).k % 5 ∧ 2 + (draws item).k % 5 ≤ 6 := by
  have hfilter : (create_item_ingredients menu_item_ids ingredient_ids
      draws).filter (fun row => decide (row.1 = item)) =
      itemIngredientsFor ingredient_ids item (draws item) := by
    refine filter_flatMap_eq _ _ item ?_ ?_ menu_item_ids hitem hmenu
    · intro b hb
      obtain ⟨ing, _, hbe⟩ := List.mem_map.mp hb
      rw [← hbe]
      simp
    · intro x hx b hb
      obtain ⟨ing, _, hbe⟩ := List.mem_map.mp hb
      rw [← hbe]
      simp [hx]
  refine ⟨?_, ?_, ?_, ?_⟩
  · rw [hfilter, itemIngredientsFor, List.map_map]
    have hcomp : ((fun r : Nat × Nat × ℚ => r.2.1) ∘
        fun ing => (item, ing, round2 ((draws item).qty ing))) = id := rfl
    rw [hcomp, List.map_id]
    have hpnd : (draws item).perm.Nodup := hperm.nodup_iff.mpr hpool
    exact hpnd.sublist (List.take_sublist _ _)
  · rw [hfilter, itemIngredientsFor, List.length_map, List.length_take,
      hperm.length_eq]
    omega
  · omega
  · have h5 : (draws item).k % 5 < 5 := Nat.mod_lt _ (by omega)
    omega

/-- C6 (witness): one menu item (id 1), ingredient pool `[10, 20, 30]`,
`randint` draw 2: the item receives `min 2 3 = 2` pairwise-distinct
ingredient links. -/
theorem item_ingredients_spec_witness :
    (([1] : List Nat)).Nodup ∧ (([10, 20, 30] : List Nat)).Nodup ∧
    (1 ∈ ([1] : List Nat)) ∧ ((wIIDraws 1).perm.Perm [10, 20, 30]) ∧
    ((((create_item_ingredients [1] [10, 20, 30] wIIDraws).filter
        (fun row => decide (row.1 = 1))).map (fun row => row.2.1)).Nodup ∧
    ((create_item_ingredients [1] [10, 20, 30] wIIDraws).filter
        (fun row => decide (row.1 = 1))).length =
      min (2 + (wIIDraws 1).k % 5) ([10, 20, 30] : List Nat).length ∧
    2 ≤ 2 + (wIIDraws 1).k % 5 ∧ 2 + (wIIDraws 1).k % 5 ≤ 6) :=
  ⟨by decide, by decide, by decide, by decide,
    item_ingredients_spec [1] [10, 20, 30] wIIDraws 1 (by decide) (by decide)
      (by decide) (by decide)⟩

/-- C8: with zero orders in the store, `create_order_items` returns the
summary `{orders: 0, order_items: 0, revenue: 0.0}` without raising, without
generating any `OrderItem` row and without issuing any update. -/
theorem reconcile_zero_orders (menu : List (Nat × ℚ))
    (draws : Nat → OrderDraw) :
    create_order_items menu [] draws =
      Except.ok ([], [], ⟨0, 0, 0⟩) := rfl

/-- C9 (counterexample): with a non-empty customer pool, `guest_rate = 0`
and the uniform draw exactly `0.0` (a value in `random.random()`'s range
`[0, 1)`), the strict comparison `random.random() > guest_rate` fails and
the generated order has a null customer id, refuting the claim for every
behaviour of the uniform source. -/
theorem guest_rate_zero_cex :
    (create_orders [1] [1] 1 0 cexODraws).map OrderRow.customer_id =
      [none] := by
  simp [create_orders, pickCustomer, cexODraws]

/-- C9 (amended): with a non-empty customer pool and `guest_rate = 0`, every
order whose uniform draw is strictly positive receives a non-null customer
id; only a draw of exactly `0.0` (possible, since `random.random()` ranges
over `[0, 1)`) produces a guest order. -/
theorem guest_rate_zero_spec (customer_ids store_ids : List Nat)
    (num_orders : Nat) (draws : Nat → ODraw)
    (hids : customer_ids ≠ [])
    (hr : ∀ i < num_orders, 0 < (draws i).r) :
    (create_orders customer_ids store_ids num_orders 0 draws).all
      (fun row => row.customer_id.isSome) = true := by
  rw [List.all_eq_true]
  intro row hrow
  obtain ⟨i, hi, hfi⟩ := List.mem_map.mp hrow
  have hir : i < num_orders := List.mem_range.mp hi
  have hcust : row.customer_id = pickCustomer customer_ids 0 (draws i) := by
    rw [← hfi]
  rw [hcust, pickCustomer, if_pos ⟨hids, hr i hir⟩]
  rfl

/-- C9 (witness): pool `[1]`, one order, `guest_rate = 0`, uniform draw
`1/2 > 0`: the order's customer id is non-null. -/
theorem guest_rate_zero_spec_witness :
    (([1] : List Nat) ≠ []) ∧ (∀ i < 1, 0 < (wODraws i).r) ∧
    (create_orders [1] [1] 1 0 wODraws).all
      (fun row => row.customer_id.isSome) = true :=
  ⟨by decide, fun i _ => by norm_num [wODraws],
    guest_rate_zero_spec [1] [1] 1 wODraws (by decide)
      (fun i _ => by norm_num [wODraws])⟩

/-- C7 (witness): with a source drawing a fresh base name each iteration, a
requested count of 2 is reached and the produced set has exactly 2 names. -/
theorem ingredient_loop_card_spec_witness :
    create_ingredient_names wIngDraws 2 2 =
      some (insert ("Cheese") (insert ("Tomato") (∅ : Finset String))) ∧
    (insert ("Cheese") (insert ("Tomato") (∅ : Finset String))).card = 2 :=
  ⟨rfl,
    ingredient_loop_card_spec wIngDraws 2 2
      (insert ("Cheese") (insert ("Tomato") (∅ : Finset String))) rfl⟩

end Populate
